import Mathlib

/-!
# Verification of the textwarp coordinate→content engine

Shallow embedding of the seeded classifier core of the repository:
`plugins/graph_classifier.py` (glyph path), `plugins/polygraph_3d.py`
(height path) and the overlay/cache logic of `textwarp.py`.

Python floats are modelled as real numbers; Python `int` as `ℤ`;
Python `%` on integers is floor-mod, which matches `Int.emod` / `Nat.mod`
for positive divisors.  Seed-derived state (region centers, gradient map,
cellular-automaton rule table, Voronoi points, terrain kernels) is
gathered in a `Config` record: the Mersenne-Twister draws of
`random.seed(seed)` are opaque, so a `Config` value stands for the data a
concretely seeded engine ends up holding, and construction-time contracts
(e.g. `random.randint(0,1)` yields only 0/1, `cos/sin` of an angle is a
unit vector) appear as explicit hypotheses where a theorem needs them.
-/

namespace Textwarp

/-- Seed-derived state of `GraphClassifier.__init__` / `Polygraph3DClassifier.__init__`.

* `region_centers`: the 10 pairs drawn by `random.randint(-1000, 1000)`.
* `gradients`: the gradient map `self.gradients`, as the total function the
  dict realises: entries for the precomputed square `[-10,10)×[-10,10)` are
  drawn at construction, entries outside it are inserted lazily by
  `dot_grid_gradient` from the process-global `random` stream.
* `ca_rules`: the 256-entry table `np.random.randint(0, 2, 256)`.
* `voronoi_points`: the 20 pairs drawn by `random.randint(-500, 500)`.
* mountain/valley/plateau/ridge/canyon lists: `self.terrain_params`
  of `Polygraph3DClassifier` (unused by the glyph path). -/
structure Config where
  region_centers : List (ℤ × ℤ)
  gradients : ℤ × ℤ → ℝ × ℝ
  ca_rules : Fin 256 → ℕ
  voronoi_points : List (ℤ × ℤ)
  mountains : List (ℤ × ℤ × ℤ × ℝ)
  valleys : List (ℤ × ℤ × ℤ × ℝ)
  plateaus : List (ℤ × ℤ × ℤ × ℝ × ℝ)
  ridges : List (ℤ × ℤ × ℤ × ℤ × ℤ × ℝ)
  canyons : List (ℤ × ℤ × ℤ × ℤ × ℤ × ℝ)

/-- Python `int(r)` for a float `r`: truncation toward zero. -/
noncomputable def pyInt (r : ℝ) : ℤ :=
  if 0 ≤ r then ⌊r⌋ else ⌈r⌉

/-- Python float modulus `a % b` (`b > 0` in all call sites):
`a - b * floor (a / b)`. -/
noncomputable def pyFMod (a b : ℝ) : ℝ :=
  a - b * ⌊a / b⌋

/-- Python `round` on a float: round-half-to-even (banker's rounding). -/
noncomputable def pyRound (r : ℝ) : ℤ :=
  if Int.fract r = 1 / 2 then (if ⌊r⌋ % 2 = 0 then ⌊r⌋ else ⌊r⌋ + 1) else round r

/-- The linear scan shared by `GraphClassifier.get_region` and
`GraphClassifier.voronoi_classifier`: walk the list keeping the index of
the strictly smallest value of `d` seen so far.  `best = none` models the
initial `min_dist = float('inf')` (every finite distance beats it);
`bi` is the current `min_idx`, `i` the index of the head of `l`. -/
noncomputable def argminAux (d : ℤ × ℤ → ℝ) : List (ℤ × ℤ) → ℕ → Option ℝ → ℕ → ℕ
  | [], _, _, bi => bi
  | c :: rest, i, best, bi =>
    match best with
    | none => argminAux d rest (i + 1) (some (d c)) i
    | some m =>
      if d c < m then argminAux d rest (i + 1) (some (d c)) i
      else argminAux d rest (i + 1) (some m) bi

/-- Euclidean distance of the query point to a region center,
`math.sqrt((x - cx)**2 + (y - cy)**2)` in `get_region`. -/
noncomputable def distTo (x y : ℝ) (c : ℤ × ℤ) : ℝ :=
  Real.sqrt ((x - (c.1 : ℝ)) ^ 2 + (y - (c.2 : ℝ)) ^ 2)

/-- `GraphClassifier.get_region`: nearest region center by linear scan,
`min_idx` initialised to 0 and `min_dist` to infinity, replaced only on a
strictly smaller distance. -/
noncomputable def get_region (centers : List (ℤ × ℤ)) (x y : ℝ) : ℕ :=
  argminAux (distTo x y) centers 0 none 0

/-- `GraphClassifier.interpolate`: smoothstep interpolation
`a0 + (a1 - a0) * (3.0 - 2.0*w) * w * w`. -/
def interpolate (a0 a1 w : ℝ) : ℝ :=
  a0 + (a1 - a0) * (3.0 - 2.0 * w) * w * w

/-- `GraphClassifier.dot_grid_gradient`: dot product of the grid-corner
gradient with the corner-to-point vector.  The lookup-or-lazily-create on
`self.gradients` is modelled by reading the total map `c.gradients`. -/
def dot_grid_gradient (c : Config) (ix iy : ℤ) (x y : ℝ) : ℝ :=
  let g := c.gradients (ix, iy)
  (x - (ix : ℝ)) * g.1 + (y - (iy : ℝ)) * g.2

/-- Raw interpolated noise value of `GraphClassifier.perlin_noise_classifier`
(the `value` variable): coordinates scaled by 50, 2×2 cell corners,
x-adjacent pairs interpolated with weight `sx`, then the results with `sy`. -/
noncomputable def perlin_raw (c : Config) (x y : ℝ) : ℝ :=
  let xs := x / 50.0
  let ys := y / 50.0
  let x0 : ℤ := ⌊xs⌋
  let y0 : ℤ := ⌊ys⌋
  let x1 : ℤ := x0 + 1
  let y1 : ℤ := y0 + 1
  let sx := xs - (x0 : ℝ)
  let sy := ys - (y0 : ℝ)
  let ix0 := interpolate (dot_grid_gradient c x0 y0 xs ys) (dot_grid_gradient c x1 y0 xs ys) sx
  let ix1 := interpolate (dot_grid_gradient c x0 y1 xs ys) (dot_grid_gradient c x1 y1 xs ys) sx
  interpolate ix0 ix1 sy

/-- `GraphClassifier.perlin_noise_classifier`: the raw value scaled to the
0–255 band by `int((value + 1) * 127.5)`. -/
noncomputable def perlin_noise_classifier (c : Config) (x y : ℝ) : ℤ :=
  pyInt ((perlin_raw c x y + 1) * 127.5)

/-- `GraphClassifier.sine_wave_classifier`: four sine terms (one radial),
then `int((value + 200) % 256)` with Python float modulus. -/
noncomputable def sine_wave_classifier (x y : ℝ) : ℤ :=
  let value := Real.sin (x / 10.0) * 50 + Real.sin (y / 15.0) * 50 +
    Real.sin ((x + y) / 20.0) * 50 + Real.sin (Real.sqrt (x ^ 2 + y ^ 2) / 10.0) * 50
  pyInt (pyFMod (value + 200) 256)

/-- One step of `GraphClassifier.cellular_automaton_classifier`'s loop:
`left = (state << 1) % 256`, `right = (state >> 1) % 256`,
`state = ca_rules[(left ^ state ^ right) % 256]`. -/
def caStep (rules : Fin 256 → ℕ) (s : ℕ) : ℕ :=
  let left := (s <<< 1) % 256
  let right := (s >>> 1) % 256
  rules ⟨(left ^^^ s ^^^ right) % 256, Nat.mod_lt _ (by norm_num)⟩

/-- `GraphClassifier.cellular_automaton_classifier` on integer coordinates:
start from `abs(x) % 256` and apply `caStep` for `abs(y) % 100` steps.
(In `classify` the arguments arrive as floats and are first put through
`int(round(·))`; integer-valued inputs round to themselves.) -/
def cellular_automaton_classifier (rules : Fin 256 → ℕ) (x y : ℤ) : ℕ :=
  (caStep rules)^[y.natAbs % 100] (x.natAbs % 256)

/-- `GraphClassifier.voronoi_classifier`: index of the closest Voronoi point
under *squared* Euclidean distance (the glyph-path scan takes no square
root), scanned with the same strictly-smaller update, result `% 256`. -/
noncomputable def voronoi_classifier (c : Config) (x y : ℝ) : ℤ :=
  (argminAux (fun p => (x - (p.1 : ℝ)) ^ 2 + (y - (p.2 : ℝ)) ^ 2) c.voronoi_points 0 none 0 : ℤ) % 256

/-- The escape loop of `GraphClassifier.fractal_classifier`:
`while z_real*z_real + z_imag*z_imag < 4 and iteration < max_iteration`,
body `z ← z² + c`.  The fuel argument carries `max_iteration - iteration`,
so fuel 20 with iteration 0 realises the source's cap of 20. -/
noncomputable def mandelLoopG (cr ci : ℝ) : ℝ → ℝ → ℕ → ℕ → ℕ
  | _, _, it, 0 => it
  | zr, zi, it, fuel + 1 =>
    if zr * zr + zi * zi < 4 then
      mandelLoopG cr ci (zr * zr - zi * zi + cr) (2 * zr * zi + ci) (it + 1) fuel
    else it

/-- `GraphClassifier.fractal_classifier`: scale by 100, iterate `z ← z² + c`
up to 20 times, output `int((iteration * 12) % 256)`. -/
noncomputable def fractal_classifier (x y : ℝ) : ℤ :=
  let it := mandelLoopG (x / 100.0) (y / 100.0) 0 0 0 20
  ((it * 12 : ℤ)) % 256

/-- `self.classifiers`: the five glyph generators in construction order. -/
noncomputable def classifiers (c : Config) : List (ℝ → ℝ → ℤ) :=
  [fun x y => perlin_noise_classifier c x y,
   fun x y => sine_wave_classifier x y,
   fun x y => (cellular_automaton_classifier c.ca_rules (pyRound x) (pyRound y) : ℤ),
   fun x y => voronoi_classifier c x y,
   fun x y => fractal_classifier x y]

/-- `GraphClassifier.classify`: nearest region, generator
`region_idx % len(self.classifiers)`, output folded by `33 + (value % 94)`. -/
noncomputable def classify (c : Config) (x y : ℝ) : ℤ :=
  33 + ((classifiers c).getD (get_region c.region_centers x y % (classifiers c).length)
    (fun _ _ => 0) x y) % 94

/-- `Polygraph3DClassifier.perlin_height_classifier`'s raw interpolated
value: same 2×2-cell structure at scale 50, but — exactly as the source
reads — the second pair of corner dot products is interpolated with the
*y* weight `sy` (line `ix1 = self.interpolate(n0, n1, sy)`), and the two
partial results again with `sy`. -/
noncomputable def perlin_height_raw (c : Config) (x y : ℝ) : ℝ :=
  let xs := x / 50.0
  let ys := y / 50.0
  let x0 : ℤ := ⌊xs⌋
  let y0 : ℤ := ⌊ys⌋
  let x1 : ℤ := x0 + 1
  let y1 : ℤ := y0 + 1
  let sx := xs - (x0 : ℝ)
  let sy := ys - (y0 : ℝ)
  let ix0 := interpolate (dot_grid_gradient c x0 y0 xs ys) (dot_grid_gradient c x1 y0 xs ys) sx
  let ix1 := interpolate (dot_grid_gradient c x0 y1 xs ys) (dot_grid_gradient c x1 y1 xs ys) sy
  interpolate ix0 ix1 sy

/-- `Polygraph3DClassifier.perlin_height_classifier`: raw value times 20. -/
noncomputable def perlin_height_classifier (c : Config) (x y : ℝ) : ℝ :=
  perlin_height_raw c x y * 20

/-- `Polygraph3DClassifier.sine_wave_height_classifier`: four sine terms
(amplitudes 1.5, 1.5, 2.0, 2.0), sum times 3.0. -/
noncomputable def sine_wave_height_classifier (x y : ℝ) : ℝ :=
  (Real.sin (x / 40.0) * 1.5 + Real.sin (y / 30.0) * 1.5 +
    Real.sin ((x + y) / 50.0) * 2.0 + Real.sin (Real.sqrt (x * x + y * y) / 25.0) * 2.0) * 3.0

/-- `Polygraph3DClassifier.voronoi_height_classifier`: sort the Euclidean
distances to all Voronoi points ascending and, when at least two exist,
return `exp(-|d1 - d0| / 5) * 30 - 15`; otherwise 0.  Python's stable
`list.sort()` is modelled by `List.insertionSort`. -/
noncomputable def voronoi_height_classifier (c : Config) (x y : ℝ) : ℝ :=
  let distances := c.voronoi_points.map fun p =>
    Real.sqrt ((x - (p.1 : ℝ)) ^ 2 + (y - (p.2 : ℝ)) ^ 2)
  match distances.insertionSort (· ≤ ·) with
  | d0 :: d1 :: _ => Real.exp (-|d1 - d0| / 5.0) * 30 - 15
  | _ => 0

/-- The escape loop of `Polygraph3DClassifier.fractal_height_classifier`:
`while abs(z) < 2 and iteration < max_iter`, with `abs` the complex
magnitude `sqrt(re² + im²)`.  Fuel as in `mandelLoopG`. -/
noncomputable def mandelLoopH (cr ci : ℝ) : ℝ → ℝ → ℕ → ℕ → ℕ
  | _, _, it, 0 => it
  | zr, zi, it, fuel + 1 =>
    if Real.sqrt (zr * zr + zi * zi) < 2 then
      mandelLoopH cr ci (zr * zr - zi * zi + cr) (2 * zr * zi + ci) (it + 1) fuel
    else it

/-- `Polygraph3DClassifier.fractal_height_classifier`: scale by 250, iterate
up to 20 times; escape at `iteration < 20` maps to
`(iteration / 20) * 30 - 15`, the cap maps to `-8`. -/
noncomputable def fractal_height_classifier (x y : ℝ) : ℝ :=
  let it := mandelLoopH (x / 250.0) (y / 250.0) 0 0 0 20
  if it < 20 then (it : ℝ) / 20 * 30 - 15 else -8

/-- Mountain term of `terrain_height_classifier`: a Gaussian bump
`hf * exp(-dist² / (1.5 * size²))` applied only when `dist < size * 3`.
(The valley term is the same with a negated amplitude.) -/
noncomputable def mountainTerm (x y : ℝ) (p : ℤ × ℤ × ℤ × ℝ) : ℝ :=
  let dist := Real.sqrt ((x - (p.1 : ℝ)) ^ 2 + (y - (p.2.1 : ℝ)) ^ 2)
  if dist < (p.2.2.1 : ℝ) * 3 then
    p.2.2.2 * Real.exp (-(dist ^ 2) / (1.5 * (p.2.2.1 : ℝ) ^ 2))
  else 0

/-- Plateau term: sigmoid `hf / (1 + exp(sharp * 1.5 * (dist - size)))`
applied only when `dist < size * 2`. -/
noncomputable def plateauTerm (x y : ℝ) (p : ℤ × ℤ × ℤ × ℝ × ℝ) : ℝ :=
  let dist := Real.sqrt ((x - (p.1 : ℝ)) ^ 2 + (y - (p.2.1 : ℝ)) ^ 2)
  if dist < (p.2.2.1 : ℝ) * 2 then
    p.2.2.2.1 / (1 + Real.exp (p.2.2.2.2 * 1.5 * (dist - (p.2.2.1 : ℝ))))
  else 0

/-- Ridge term: rotate the offset by the kernel angle (degrees → radians);
inside half the length and within the width, a Gaussian of the rotated
perpendicular distance `hf * exp(-dist² / (0.5 * width²))`.
(The canyon term is the same with a negated amplitude.) -/
noncomputable def ridgeTerm (x y : ℝ) (p : ℤ × ℤ × ℤ × ℤ × ℤ × ℝ) : ℝ :=
  let rx := (p.1 : ℝ)
  let ry := (p.2.1 : ℝ)
  let len := (p.2.2.1 : ℝ)
  let width := (p.2.2.2.1 : ℝ)
  let angle := (p.2.2.2.2.1 : ℝ) * Real.pi / 180
  let hf := p.2.2.2.2.2
  let tx := x - rx
  let ty := y - ry
  let xrot := tx * Real.cos angle + ty * Real.sin angle
  let yrot := -tx * Real.sin angle + ty * Real.cos angle
  if |xrot| < len / 2 then
    (if |yrot| < width then hf * Real.exp (-(|yrot| ^ 2) / (0.5 * width ^ 2)) else 0)
  else 0

/-- `Polygraph3DClassifier.terrain_height_classifier`: sum of mountain,
valley (negated), plateau, ridge and canyon (negated) kernels plus the
small texture term `sin(x/8) * cos(y/8)`, clamped into `[-10, 10]` by
`max(-10, min(10, height))`. -/
noncomputable def terrain_height_classifier (c : Config) (x y : ℝ) : ℝ :=
  let h := (c.mountains.map (mountainTerm x y)).sum
    + (c.valleys.map fun p => -(mountainTerm x y (p.1, p.2.1, p.2.2.1, p.2.2.2))).sum
    + (c.plateaus.map (plateauTerm x y)).sum
    + (c.ridges.map (ridgeTerm x y)).sum
    + (c.canyons.map fun p =>
        -(ridgeTerm x y (p.1, p.2.1, p.2.2.1, p.2.2.2.1, p.2.2.2.2.1, p.2.2.2.2.2))).sum
    + Real.sin (x / 8) * Real.cos (y / 8) * 1.0
  max (-10) (min 10 h)

/-- `self.height_classifiers` of `Polygraph3DClassifier`: the *five* height
generators in construction order. -/
noncomputable def height_classifiers (c : Config) : List (ℝ → ℝ → ℝ) :=
  [fun x y => perlin_height_classifier c x y,
   fun x y => sine_wave_height_classifier x y,
   fun x y => voronoi_height_classifier c x y,
   fun x y => fractal_height_classifier x y,
   fun x y => terrain_height_classifier c x y]

/-- `Polygraph3DClassifier.get_height`: nearest region via the inherited
`get_region` over the inherited `region_centers`, generator
`region_idx % len(self.height_classifiers)`. -/
noncomputable def classifier_get_height (c : Config) (x y : ℝ) : ℝ :=
  (height_classifiers c).getD
    (get_region c.region_centers x y % (height_classifiers c).length)
    (fun _ _ => 0) x y

/-- The cache-miss compute path of `Polygraph3DPlugin.get_height` on integer
coordinates: raw classifier height, normalised by `(raw + 10) / 20`, scaled
into `[min_height, max_height]`, plus the per-coordinate variation
`(hash(key) % 1000) / 2000 - 0.25`, where `hashFn` models Python's
process-seeded string hash of the key `f"{x},{y}"`.  (The `height_map`
cache only replays values computed by this same expression.) -/
noncomputable def plugin_get_height (c : Config) (hashFn : ℤ × ℤ → ℤ)
    (minH maxH : ℝ) (x y : ℤ) : ℝ :=
  let raw := classifier_get_height c (x : ℝ) (y : ℝ)
  let normalized := (raw + 10) / 20.0
  let h := minH + normalized * (maxH - minH)
  h + (((hashFn (x, y) % 1000 : ℤ) : ℝ) / 2000.0 - 0.25)

/-- The dispatch index the height path actually uses:
`get_region(x, y) % len(self.height_classifiers)`. -/
noncomputable def heightGeneratorIndex (c : Config) (x y : ℝ) : ℕ :=
  get_region c.region_centers x y % (height_classifiers c).length

/-! ## Spec-side formulations (for refinement comparisons)

These two definitions follow the *spec's words*, to be compared with the
definitions above that were translated from the source. -/

/-- Spec's gradient-noise description (§4.2 / claim C6): dot product of each
corner gradient with the corner-to-point vector, each x-adjacent pair
interpolated with the fractional-x weight, the two results with the
fractional-y weight, smoothstep `3w² − 2w³`. -/
noncomputable def bilinearSpecValue (c : Config) (x y : ℝ) : ℝ :=
  let xs := x / 50.0
  let ys := y / 50.0
  let x0 : ℤ := ⌊xs⌋
  let y0 : ℤ := ⌊ys⌋
  let sx := xs - (x0 : ℝ)
  let sy := ys - (y0 : ℝ)
  interpolate
    (interpolate (dot_grid_gradient c x0 y0 xs ys) (dot_grid_gradient c (x0 + 1) y0 xs ys) sx)
    (interpolate (dot_grid_gradient c x0 (y0 + 1) xs ys) (dot_grid_gradient c (x0 + 1) (y0 + 1) xs ys) sx)
    sy

/-- Claim C7's step formula: `rule_table[((state<<1) ^ state ^ (state>>1)) mod 256]`
(xor first, one reduction mod 256 at the end). -/
def caStepSpec (rules : Fin 256 → ℕ) (s : ℕ) : ℕ :=
  rules ⟨((s <<< 1) ^^^ s ^^^ (s >>> 1)) % 256, Nat.mod_lt _ (by norm_num)⟩

/-! ## The overlay and glyph cache of `textwarp.py` -/

/-- First-match association-list lookup; Python dict reads (`k in d` then
`d[k]`) and writes (`d[k] = v`, modelled as a cons) realise exactly this. -/
def alookup {α β : Type} [DecidableEq α] : List (α × β) → α → Option β
  | [], _ => none
  | (k, v) :: rest, a => if k = a then some v else alookup rest a

/-- Mutable state of `TextAdventure` relevant to the world engine:
`self.spaces` (the erased-cell overlay, keyed by `get_space_key`, i.e. the
md5 hex digest of `f"{x},{y}"`, abstracted to a key type `K`) and
`self.char_cache` (keyed by `f"{x},{y}"`, i.e. by the coordinate pair). -/
structure GameState (K : Type) where
  spaces : List (K × (ℤ × ℤ))
  char_cache : List ((ℤ × ℤ) × ℕ)

/-- `TextAdventure.get_char_at` (base engine): cache first, then the overlay
(erased ⇒ blank, code 32), else the glyph code `(x + y * 1000) % 127`; the
computed glyph is written back into the cache.  Returns the glyph code and
the updated state. -/
def get_char_at {K : Type} [DecidableEq K] (keyFn : ℤ × ℤ → K)
    (s : GameState K) (x y : ℤ) : ℕ × GameState K :=
  match alookup s.char_cache (x, y) with
  | some ch => (ch, s)
  | none =>
    let ch := if (alookup s.spaces (keyFn (x, y))).isSome then 32
              else ((x + y * 1000) % 127).toNat
    (ch, { s with char_cache := ((x, y), ch) :: s.char_cache })

/-- The space-key branch of `TextAdventure.handle_input`: the erase
mutation.  It writes `self.spaces[space_key] = (x, y)` (and persists), but
touches `self.char_cache` in no way. -/
def erase {K : Type} (keyFn : ℤ × ℤ → K) (s : GameState K) (x y : ℤ) : GameState K :=
  { s with spaces := (keyFn (x, y), (x, y)) :: s.spaces }

/-- `TextAdventure.load_spaces`: `spaces = {}`, then inside
`try: if os.path.exists(...): spaces = json.load(...) except: log`.
The file system outcome is the argument: `none` = file missing,
`some none` = file present but `open`/`json.load` raised,
`some (some m)` = parsed mapping `m`.  All three branches return
normally — the two failure outcomes fall back to the empty overlay. -/
def load_spaces (K : Type) (file : Option (Option (List (K × (ℤ × ℤ))))) :
    List (K × (ℤ × ℤ)) :=
  match file with
  | none => []
  | some none => []
  | some (some m) => m

/-! ## Concrete configurations

Stand-ins for the seed-derived data of concretely constructed engines,
used to evaluate the code at explicit inputs.  Every gradient is a unit
vector and every `ca_rules` entry is 0/1, as construction guarantees. -/

/-- A configuration whose first region center sits exactly on the query
point `(1025, 1000)` used by the determinism analysis; all gradients are
the unit vector `(1, 0)`. -/
noncomputable def cfgA : Config where
  region_centers := [(1025, 1000), (0, 0), (0, 0), (0, 0), (0, 0),
    (0, 0), (0, 0), (0, 0), (0, 0), (0, 0)]
  gradients := fun _ => (1, 0)
  ca_rules := fun _ => 0
  voronoi_points := [(0, 0)]
  mountains := []
  valleys := []
  plateaus := []
  ridges := []
  canyons := []

/-- Identical to `cfgA` on every seed-derived field and on the whole
precomputed gradient square `[-10, 10) × [-10, 10)`; it differs only in the
gradient of cell `(21, 20)` — a cell the constructor never fills, whose
vector the source draws lazily from the process-global `random` stream at
first query. -/
noncomputable def cfgB : Config :=
  { cfgA with gradients := fun p => if p = (21, 20) then (-1, 0) else (1, 0) }

/-- A configuration whose fourth region center (index 3 — the
fractal generator's slot mod 5) sits exactly on the query point
`(1000, 0)`. -/
noncomputable def cfgC : Config :=
  { cfgA with region_centers := [(-1000, -1000), (-1000, -1000), (-1000, -1000),
      (1000, 0), (-1000, -1000), (-1000, -1000), (-1000, -1000), (-1000, -1000),
      (-1000, -1000), (-1000, -1000)] }

/-- A configuration whose sixth region center (index 5) sits exactly on the
query point `(7, 0)`. -/
noncomputable def cfgD : Config :=
  { cfgA with region_centers := [(-1000, -1000), (-1000, -1000), (-1000, -1000),
      (-1000, -1000), (-1000, -1000), (7, 0), (-1000, -1000), (-1000, -1000),
      (-1000, -1000), (-1000, -1000)] }

/-- Gradient map used for the perlin interpolation analysis: `(0, 1)` on
the right-hand corners `(1, 0)` and `(1, 1)` of the unit cell, `(1, 0)`
elsewhere.  All values are unit vectors. -/
noncomputable def cfgE : Config :=
  { cfgA with gradients := fun p => if p = (1, 0) ∨ p = (1, 1) then (0, 1) else (1, 0) }

/-! ## Characterisation of the linear argmin scan -/

/-- Running `argminAux` with current best value `m` (held by index `bi`)
either keeps `bi` — exactly when no remaining value is strictly below `m` —
or lands on the first remaining index whose value is strictly below `m`
and below every other remaining value, strictly below all earlier ones. -/
theorem argminAux_some_spec (d : ℤ × ℤ → ℝ) :
    ∀ (l : List (ℤ × ℤ)) (i bi : ℕ) (m : ℝ),
      (argminAux d l i (some m) bi = bi ∧
        ∀ k, k < l.length → m ≤ d (l.getD k (0, 0))) ∨
      (∃ k, k < l.length ∧ argminAux d l i (some m) bi = i + k ∧
        d (l.getD k (0, 0)) < m ∧
        (∀ j, j < l.length → d (l.getD k (0, 0)) ≤ d (l.getD j (0, 0))) ∧
        (∀ j, j < k → d (l.getD k (0, 0)) < d (l.getD j (0, 0)))) := by
  intro l
  induction l with
  | nil =>
    intro i bi m
    left
    exact ⟨rfl, fun k hk => absurd hk (by simp)⟩
  | cons c t ih =>
    intro i bi m
    by_cases h : d c < m
    · rcases ih (i + 1) i (d c) with ⟨heq, hall⟩ | ⟨k, hk, heq, hlt, hle, hstrict⟩
      · right
        refine ⟨0, by simp, ?_, ?_, ?_, ?_⟩
        · simpa [argminAux, h] using heq
        · simpa using h
        · intro j hj
          match j with
          | 0 => simp
          | j + 1 =>
            simp only [List.getD_cons_zero, List.getD_cons_succ]
            exact hall j (by simpa using hj)
        · intro j hj
          exact absurd hj (by omega)
      · right
        refine ⟨k + 1, by simpa using hk, ?_, ?_, ?_, ?_⟩
        · have heq2 : argminAux d (c :: t) i (some m) bi = argminAux d t (i + 1) (some (d c)) i := by
            simp [argminAux, h]
          rw [heq2, heq]; omega
        · simp only [List.getD_cons_succ]
          exact lt_trans hlt h
        · intro j hj
          match j with
          | 0 =>
            simp only [List.getD_cons_zero, List.getD_cons_succ]
            exact le_of_lt hlt
          | j + 1 =>
            simp only [List.getD_cons_succ]
            exact hle j (by simpa using hj)
        · intro j hj
          match j with
          | 0 =>
            simp only [List.getD_cons_zero, List.getD_cons_succ]
            exact hlt
          | j + 1 =>
            simp only [List.getD_cons_succ]
            exact hstrict j (by omega)
    · rcases ih (i + 1) bi m with ⟨heq, hall⟩ | ⟨k, hk, heq, hlt, hle, hstrict⟩
      · left
        refine ⟨by simpa [argminAux, h] using heq, ?_⟩
        intro k hk
        match k with
        | 0 => simpa using not_lt.mp h
        | k + 1 =>
          simp only [List.getD_cons_succ]
          exact hall k (by simpa using hk)
      · right
        refine ⟨k + 1, by simpa using hk, ?_, ?_, ?_, ?_⟩
        · have heq2 : argminAux d (c :: t) i (some m) bi = argminAux d t (i + 1) (some m) bi := by
            simp [argminAux, h]
          rw [heq2, heq]; omega
        · simp only [List.getD_cons_succ]
          exact hlt
        · intro j hj
          match j with
          | 0 =>
            simp only [List.getD_cons_zero, List.getD_cons_succ]
            exact le_of_lt (lt_of_lt_of_le hlt (not_lt.mp h))
          | j + 1 =>
            simp only [List.getD_cons_succ]
            exact hle j (by simpa using hj)
        · intro j hj
          match j with
          | 0 =>
            simp only [List.getD_cons_zero, List.getD_cons_succ]
            exact lt_of_lt_of_le hlt (not_lt.mp h)
          | j + 1 =>
            simp only [List.getD_cons_succ]
            exact hstrict j (by omega)

/-- `get_region` returns an in-range index of minimal distance, and on
exact distance ties the smallest such index. -/
theorem get_region_spec (centers : List (ℤ × ℤ)) (x y : ℝ) (hne : centers ≠ []) :
    get_region centers x y < centers.length ∧
    (∀ j, j < centers.length →
      distTo x y (centers.getD (get_region centers x y) (0, 0)) ≤ distTo x y (centers.getD j (0, 0))) ∧
    (∀ j, j < centers.length →
      distTo x y (centers.getD j (0, 0)) = distTo x y (centers.getD (get_region centers x y) (0, 0)) →
      get_region centers x y ≤ j) := by
  match centers, hne with
  | c :: t, _ =>
    have hunfold : get_region (c :: t) x y = argminAux (distTo x y) t 1 (some (distTo x y c)) 0 := by
      simp [get_region, argminAux]
    rcases argminAux_some_spec (distTo x y) t 1 0 (distTo x y c) with
      ⟨heq, hall⟩ | ⟨k, hk, heq, hlt, hle, hstrict⟩
    · rw [hunfold, heq]
      refine ⟨by simp, ?_, ?_⟩
      · intro j hj
        match j with
        | 0 => simp
        | j + 1 =>
          simp only [List.getD_cons_zero, List.getD_cons_succ]
          exact hall j (by simpa using hj)
      · intro j hj htie
        exact Nat.zero_le j
    · rw [hunfold, heq]
      refine ⟨by simp; omega, ?_, ?_⟩
      · intro j hj
        have h1k : (1 : ℕ) + k = k + 1 := by omega
        rw [h1k]
        match j with
        | 0 =>
          simp only [List.getD_cons_zero, List.getD_cons_succ]
          exact le_of_lt hlt
        | j + 1 =>
          simp only [List.getD_cons_succ]
          exact hle j (by simpa using hj)
      · intro j hj htie
        have h1k : (1 : ℕ) + k = k + 1 := by omega
        rw [h1k] at htie ⊢
        match j with
        | 0 =>
          exfalso
          simp only [List.getD_cons_zero, List.getD_cons_succ] at htie
          exact absurd htie (ne_of_gt hlt)
        | j + 1 =>
          simp only [List.getD_cons_succ] at htie
          by_contra hcon
          have hjk : j < k := by omega
          exact absurd htie (ne_of_gt (hstrict j hjk))

/-- If index `j0` attains the global minimum distance and beats every
earlier index strictly, the scan lands exactly on `j0`. -/
theorem get_region_eq_first_min (centers : List (ℤ × ℤ)) (x y : ℝ) (j0 : ℕ)
    (h0 : j0 < centers.length)
    (hmin : ∀ k, k < centers.length →
      distTo x y (centers.getD j0 (0, 0)) ≤ distTo x y (centers.getD k (0, 0)))
    (hfirst : ∀ k, k < j0 →
      distTo x y (centers.getD j0 (0, 0)) < distTo x y (centers.getD k (0, 0))) :
    get_region centers x y = j0 := by
  have hne : centers ≠ [] := by
    intro h
    rw [h] at h0
    simp at h0
  obtain ⟨hlen, hminr, htie⟩ := get_region_spec centers x y hne
  have h1 : distTo x y (centers.getD (get_region centers x y) (0, 0)) ≤
      distTo x y (centers.getD j0 (0, 0)) := hminr j0 h0
  have h2 : distTo x y (centers.getD j0 (0, 0)) ≤
      distTo x y (centers.getD (get_region centers x y) (0, 0)) :=
    hmin (get_region centers x y) hlen
  have heq : distTo x y (centers.getD j0 (0, 0)) =
      distTo x y (centers.getD (get_region centers x y) (0, 0)) := le_antisymm h2 h1
  have hle : get_region centers x y ≤ j0 := htie j0 h0 heq
  rcases lt_or_eq_of_le hle with hlt | h
  · exact absurd heq.symm (ne_of_gt (hfirst _ hlt))
  · exact h

/-- Claim C8: Region resolution is the linear scan of `get_region` that
replaces the running best only on a strictly smaller distance: the chosen
index has minimal distance to the query point among all region centers,
and every center at exactly the same distance that appears later in
construction order loses — the chosen index is ≤ every tying index.
-/
theorem c8_region_tiebreak_first_in_order (centers : List (ℤ × ℤ)) (x y : ℝ) (j : ℕ)
    (hj : j < centers.length) :
    distTo x y (centers.getD (get_region centers x y) (0, 0)) ≤
      distTo x y (centers.getD j (0, 0)) ∧
    (distTo x y (centers.getD j (0, 0)) =
        distTo x y (centers.getD (get_region centers x y) (0, 0)) →
      get_region centers x y ≤ j) := by
  have hne : centers ≠ [] := by
    intro h
    rw [h] at hj
    simp at hj
  obtain ⟨-, hmin, htie⟩ := get_region_spec centers x y hne
  exact ⟨hmin j hj, htie j hj⟩

/-- Witness for C8 at the concrete layout `[(1, 0), (0, 1)]` queried from
the origin, where both centers are exactly equidistant. -/
theorem c8_region_tiebreak_first_in_order_witness :
    distTo 0 0 ([((1 : ℤ), (0 : ℤ)), (0, 1)].getD
        (get_region [((1 : ℤ), (0 : ℤ)), (0, 1)] 0 0) (0, 0)) ≤
      distTo 0 0 ([((1 : ℤ), (0 : ℤ)), (0, 1)].getD 1 (0, 0)) ∧
    (distTo 0 0 ([((1 : ℤ), (0 : ℤ)), (0, 1)].getD 1 (0, 0)) =
        distTo 0 0 ([((1 : ℤ), (0 : ℤ)), (0, 1)].getD
          (get_region [((1 : ℤ), (0 : ℤ)), (0, 1)] 0 0) (0, 0)) →
      get_region [((1 : ℤ), (0 : ℤ)), (0, 1)] 0 0 ≤ 1) :=
  c8_region_tiebreak_first_in_order [((1 : ℤ), (0 : ℤ)), (0, 1)] 0 0 1 (by norm_num)

/-! ## Concrete region resolutions -/

theorem get_region_cfgA_eval : get_region cfgA.region_centers 1025 1000 = 0 := by
  have hz : distTo 1025 1000 (cfgA.region_centers.getD 0 (0, 0)) = 0 := by
    simp [cfgA, distTo]
  apply get_region_eq_first_min
  · simp [cfgA]
  · intro k hk
    rw [hz]
    exact Real.sqrt_nonneg _
  · intro k hk
    omega

theorem get_region_cfgC_eval : get_region cfgC.region_centers 1000 0 = 3 := by
  have hz : distTo 1000 0 (cfgC.region_centers.getD 3 (0, 0)) = 0 := by
    simp [cfgC, cfgA, distTo]
  apply get_region_eq_first_min
  · simp [cfgC, cfgA]
  · intro k hk
    rw [hz]
    exact Real.sqrt_nonneg _
  · intro k hk
    rw [hz]
    interval_cases k <;>
      · simp only [cfgC, cfgA, distTo, List.getD_cons_zero, List.getD_cons_succ]
        apply Real.sqrt_pos.mpr
        norm_num

theorem get_region_cfgD_eval : get_region cfgD.region_centers 7 0 = 5 := by
  have hz : distTo 7 0 (cfgD.region_centers.getD 5 (0, 0)) = 0 := by
    simp [cfgD, cfgA, distTo]
  apply get_region_eq_first_min
  · simp [cfgD, cfgA]
  · intro k hk
    rw [hz]
    exact Real.sqrt_nonneg _
  · intro k hk
    rw [hz]
    interval_cases k <;>
      · simp only [cfgD, cfgA, distTo, List.getD_cons_zero, List.getD_cons_succ]
        apply Real.sqrt_pos.mpr
        norm_num

/-! ## Claims C5, C7, C10, C9, C4 -/

/-- Claim C5: For every coordinate, `classify` selects the generator at
region index mod 5 (the bank holds five generators), runs it, and folds
its integer output by `33 + (value % 94)`; the result therefore always
lies in `[33, 126]`. -/
theorem c5_classify_mod5_fold_range (c : Config) (x y : ℝ) :
    classify c x y = 33 +
      ((classifiers c).getD (get_region c.region_centers x y % 5) (fun _ _ => 0) x y) % 94 ∧
    33 ≤ classify c x y ∧ classify c x y ≤ 126 := by
  have h1 : 0 ≤ ((classifiers c).getD
      (get_region c.region_centers x y % (classifiers c).length) (fun _ _ => 0) x y) % 94 :=
    Int.emod_nonneg _ (by norm_num)
  have h2 : ((classifiers c).getD
      (get_region c.region_centers x y % (classifiers c).length) (fun _ _ => 0) x y) % 94 < 94 :=
    Int.emod_lt_of_pos _ (by norm_num)
  refine ⟨rfl, ?_, ?_⟩ <;> (unfold classify; omega)

/-- Low 8 bits of a xor pass through reductions mod 256 of the operands. -/
theorem xor_mod_256 (a s b : ℕ) :
    (a % 256 ^^^ s ^^^ b % 256) % 256 = (a ^^^ s ^^^ b) % 256 := by
  apply Nat.eq_of_testBit_eq
  intro i
  have h256 : (256 : ℕ) = 2 ^ 8 := by norm_num
  rw [h256]
  simp only [Nat.testBit_mod_two_pow, Nat.testBit_xor]
  by_cases h : i < 8 <;> simp [h]

/-- Claim C7: The cellular-automaton generator starts from `|x| mod 256` and
applies `state ← rule_table[((state<<1) ^ state ^ (state>>1)) mod 256]`
exactly `|y| mod 100` times.  (The source reduces `state<<1` and `state>>1`
mod 256 before the xor; that commutes with the final reduction.) -/
theorem c7_cellular_automaton_steps (rules : Fin 256 → ℕ) (x y : ℤ) :
    cellular_automaton_classifier rules x y =
      (caStepSpec rules)^[y.natAbs % 100] (x.natAbs % 256) := by
  have hstep : caStep rules = caStepSpec rules := by
    funext s
    unfold caStep caStepSpec
    exact congrArg rules (Fin.mk_eq_mk.mpr (xor_mod_256 (s <<< 1) s (s >>> 1)))
  rw [cellular_automaton_classifier, hstep]

/-- Claim C10: When every rule-table entry is 0 or 1 (as
`np.random.randint(0, 2, 256)` guarantees at construction), the
cellular-automaton generator returns `|x| mod 256` unchanged for
`|y| mod 100 = 0` and a value in `{0, 1}` for `|y| mod 100 ≥ 1`. -/
theorem c10_ca_output_binary (rules : Fin 256 → ℕ) (x y : ℤ)
    (h : ∀ i, rules i < 2) :
    (y.natAbs % 100 = 0 → cellular_automaton_classifier rules x y = x.natAbs % 256) ∧
    (1 ≤ y.natAbs % 100 → cellular_automaton_classifier rules x y < 2) := by
  constructor
  · intro h0
    rw [cellular_automaton_classifier, h0]
    rfl
  · intro h1
    rw [cellular_automaton_classifier]
    obtain ⟨n, hn⟩ : ∃ n, y.natAbs % 100 = n + 1 := ⟨y.natAbs % 100 - 1, by omega⟩
    rw [hn, Function.iterate_succ_apply']
    exact h _

/-- Witness for C10 with the all-zero rule table at `(x, y) = (5, 3)`. -/
theorem c10_ca_output_binary_witness :
    ((3 : ℤ).natAbs % 100 = 0 →
      cellular_automaton_classifier (fun _ => 0) 5 3 = (5 : ℤ).natAbs % 256) ∧
    (1 ≤ (3 : ℤ).natAbs % 100 → cellular_automaton_classifier (fun _ => 0) 5 3 < 2) :=
  c10_ca_output_binary (fun _ => 0) 5 3 (fun i => by norm_num)

/-- Claim C9: `load_spaces` absorbs both failure outcomes — file missing
(`none`) and file present but unparsable (`some none`) — into the empty
overlay, returning normally in every case; a parsed mapping is returned
as-is.  The `try/except` of the source catches every exception from
`open`/`json.load`, so no exception escapes. -/
theorem c9_load_spaces_fallback (K : Type) :
    load_spaces K none = [] ∧ load_spaces K (some none) = [] ∧
    ∀ m : List (K × (ℤ × ℤ)), load_spaces K (some (some m)) = m :=
  ⟨rfl, rfl, fun _ => rfl⟩

/-- Counterexample to claim C4 as stated: start from a fresh state, read the
glyph at `(1, 0)` (code `(1 + 0*1000) % 127 = 1`, now cached), erase
`(1, 0)`, read again: the cached glyph 1 is returned, not the blank 32 —
the mutation did not invalidate the cached entry. -/
theorem c4_counterexample_cached_glyph_survives_erase :
    (get_char_at (fun p : ℤ × ℤ => p)
        (erase (fun p : ℤ × ℤ => p)
          (get_char_at (fun p : ℤ × ℤ => p) (⟨[], []⟩ : GameState (ℤ × ℤ)) 1 0).2 1 0)
        1 0).1 = 1 ∧ (1 : ℕ) ≠ 32 := by
  constructor
  · rfl
  · decide

/-- Claim C4, amended: After `erase(x, y)`, `get_char_at(x, y)` returns the
blank glyph (code 32) *provided the glyph cache holds no entry for
`(x, y)`*; the erase itself never invalidates an existing cached entry,
which keeps being served until the next bulk cache clear. -/
theorem c4_amended_erase_blank_on_cache_miss (K : Type) [DecidableEq K]
    (keyFn : ℤ × ℤ → K) (s : GameState K) (x y : ℤ)
    (hmiss : alookup s.char_cache (x, y) = none) :
    (get_char_at keyFn (erase keyFn s x y) x y).1 = 32 := by
  unfold get_char_at erase
  simp [hmiss, alookup]

/-- Witness for the amended C4 at a fresh state and `(x, y) = (5, 5)`. -/
theorem c4_amended_erase_blank_on_cache_miss_witness :
    (get_char_at (fun p : ℤ × ℤ => p)
        (erase (fun p : ℤ × ℤ => p) (⟨[], []⟩ : GameState (ℤ × ℤ)) 5 5) 5 5).1 = 32 :=
  c4_amended_erase_blank_on_cache_miss (ℤ × ℤ) (fun p => p)
    (⟨[], []⟩ : GameState (ℤ × ℤ)) 5 5 rfl

/-- Counterexample to claim C3 as stated: the height bank holds *five*
generators, not six, and dispatch reduces the region index mod 5.  In
`cfgD` the query `(7, 0)` resolves to region index 5; the code dispatches
to generator `5 % 5 = 0` (gradient noise), while the claimed `mod 6`
dispatch would select index `5 % 6 = 5` (terrain-features, which the claim
lists among the six). -/
theorem c3_counterexample_five_generators_mod5 :
    get_region cfgD.region_centers 7 0 = 5 ∧
    (height_classifiers cfgD).length = 5 ∧
    heightGeneratorIndex cfgD 7 0 = 0 ∧
    heightGeneratorIndex cfgD 7 0 ≠ 5 % 6 := by
  have h5 := get_region_cfgD_eval
  have hlen : (height_classifiers cfgD).length = 5 := rfl
  have hidx : heightGeneratorIndex cfgD 7 0 = 0 := by
    unfold heightGeneratorIndex
    rw [h5, hlen]
  exact ⟨h5, rfl, hidx, by rw [hidx]; norm_num⟩

/-- Claim C3, amended: The height classifier resolves the nearest center
with the *same* inherited region set the glyph path uses
(`self.region_centers`), and dispatches to the generator at region index
mod 5, among the five height generators (gradient-noise, sine, Voronoi,
fractal, terrain-features). -/
theorem c3_amended_height_dispatch_mod5_shared_regions (c : Config) (x y : ℝ) :
    classifier_get_height c x y =
      (height_classifiers c).getD (get_region c.region_centers x y % 5) (fun _ _ => 0) x y :=
  rfl

/-- Claim C6: The glyph-path gradient-noise generator is exactly the
claimed bilinear smooth interpolation (x-adjacent pairs with the
fractional-x weight, results with the fractional-y weight).  The
height-path copy is *not*: at `(25, 30)` with the unit gradients of
`cfgE` it disagrees with the bilinear formula, because its second pair is
interpolated with the fractional-*y* weight (`polygraph_3d.py` line 85
passes `sy` where the glyph path passes `sx`). -/
theorem c6_bilinear_glyph_ok_height_broken :
    (∀ (c : Config) (x y : ℝ), perlin_raw c x y = bilinearSpecValue c x y) ∧
    perlin_height_raw cfgE 25 30 ≠ bilinearSpecValue cfgE 25 30 := by
  constructor
  · intro c x y
    rfl
  · have h1 : ((25 : ℝ) / 50.0) = 1 / 2 := by norm_num
    have h2 : ((30 : ℝ) / 50.0) = 3 / 5 := by norm_num
    have hf1 : ⌊(1 / 2 : ℝ)⌋ = 0 := by norm_num
    have hf2 : ⌊(3 / 5 : ℝ)⌋ = 0 := by norm_num
    simp only [perlin_height_raw, bilinearSpecValue, dot_grid_gradient, interpolate,
      cfgE, cfgA, h1, h2, hf1, hf2]
    norm_num [Prod.ext_iff]

theorem classify_cfgA_eval : classify cfgA 1025 1000 = 66 := by
  have hv : perlin_noise_classifier cfgA 1025 1000 = 127 := by
    have h1 : ((1025 : ℝ) / 50.0) = 41 / 2 := by norm_num
    have h2 : ((1000 : ℝ) / 50.0) = 20 := by norm_num
    have hf1 : ⌊(41 / 2 : ℝ)⌋ = 20 := by norm_num
    have hf2 : ⌊(20 : ℝ)⌋ = 20 := by norm_num
    simp only [perlin_noise_classifier, perlin_raw, dot_grid_gradient, interpolate,
      pyInt, cfgA, h1, h2, hf1, hf2]
    norm_num
  unfold classify
  rw [get_region_cfgA_eval]
  have hgetD : (classifiers cfgA).getD (0 % (classifiers cfgA).length) (fun _ _ => 0) 1025 1000 =
      perlin_noise_classifier cfgA 1025 1000 := rfl
  rw [hgetD, hv]
  norm_num

theorem classify_cfgB_eval : classify cfgB 1025 1000 = 36 := by
  have hv : perlin_noise_classifier cfgB 1025 1000 = 191 := by
    have h1 : ((1025 : ℝ) / 50.0) = 41 / 2 := by norm_num
    have h2 : ((1000 : ℝ) / 50.0) = 20 := by norm_num
    have hf1 : ⌊(41 / 2 : ℝ)⌋ = 20 := by norm_num
    have hf2 : ⌊(20 : ℝ)⌋ = 20 := by norm_num
    simp only [perlin_noise_classifier, perlin_raw, dot_grid_gradient, interpolate,
      pyInt, cfgB, cfgA, h1, h2, hf1, hf2]
    norm_num [Prod.ext_iff]
  have hr : get_region cfgB.region_centers 1025 1000 = 0 := get_region_cfgA_eval
  unfold classify
  rw [hr]
  have hgetD : (classifiers cfgB).getD (0 % (classifiers cfgB).length) (fun _ _ => 0) 1025 1000 =
      perlin_noise_classifier cfgB 1025 1000 := rfl
  rw [hgetD, hv]
  norm_num

/-- Claim C1: Equal-seed engines do *not* return identical glyphs regardless
of query history: `cfgA` and `cfgB` agree on every seed-derived field —
region centers, rule table, Voronoi points, and the gradient of every cell
of the precomputed square `[-10, 10) × [-10, 10)` — and differ only in the
gradient of cell `(21, 20)`, which the constructor never fills and which
`dot_grid_gradient` draws lazily from the process-global, call-order
dependent `random` stream at first query.  Both are therefore reachable by
engines built from the *same* seed under different query histories, yet
`glyph_at(1025, 1000)` (scaled cell `(20, 20)`–`(21, 20)`) differs: 66
versus 36. -/
theorem c1_lazy_gradient_breaks_determinism :
    cfgA.region_centers = cfgB.region_centers ∧
    cfgA.ca_rules = cfgB.ca_rules ∧
    cfgA.voronoi_points = cfgB.voronoi_points ∧
    (∀ i j : Fin 20, cfgA.gradients ((i : ℤ) - 10, (j : ℤ) - 10) =
      cfgB.gradients ((i : ℤ) - 10, (j : ℤ) - 10)) ∧
    classify cfgA 1025 1000 = 66 ∧ classify cfgB 1025 1000 = 36 := by
  refine ⟨rfl, rfl, rfl, ?_, classify_cfgA_eval, classify_cfgB_eval⟩
  intro i j
  have hi : (i : ℕ) < 20 := i.isLt
  simp only [cfgB, cfgA]
  rw [if_neg]
  intro h
  rw [Prod.ext_iff] at h
  have h1 : ((i : ℕ) : ℤ) - 10 = 21 := h.1
  omega

theorem mandelLoopH_succ (cr ci zr zi : ℝ) (it fuel : ℕ) :
    mandelLoopH cr ci zr zi it (fuel + 1) =
      if Real.sqrt (zr * zr + zi * zi) < 2 then
        mandelLoopH cr ci (zr * zr - zi * zi + cr) (2 * zr * zi + ci) (it + 1) fuel
      else it := rfl

theorem mandelLoopH_four : mandelLoopH 4 0 0 0 0 20 = 1 := by
  have hc1 : Real.sqrt ((0 : ℝ) * 0 + 0 * 0) < 2 := by simp
  have hc2 : ¬ Real.sqrt ((4 : ℝ) * 4 + 0 * 0) < 2 := by
    have h16 : ((4 : ℝ) * 4 + 0 * 0) = 4 ^ 2 := by norm_num
    rw [h16, Real.sqrt_sq (by norm_num : (0 : ℝ) ≤ 4)]
    norm_num
  have hc2b : ¬ Real.sqrt (((0 : ℝ) * 0 - 0 * 0 + 4) * (0 * 0 - 0 * 0 + 4) +
      (2 * 0 * 0 + 0) * (2 * 0 * 0 + 0)) < 2 := by
    have harg : (((0 : ℝ) * 0 - 0 * 0 + 4) * (0 * 0 - 0 * 0 + 4) +
        (2 * 0 * 0 + 0) * (2 * 0 * 0 + 0)) = 4 ^ 2 := by norm_num
    rw [harg, Real.sqrt_sq (by norm_num : (0 : ℝ) ≤ 4)]
    norm_num
  have s1 : mandelLoopH 4 0 0 0 0 20 =
      mandelLoopH 4 0 (0 * 0 - 0 * 0 + 4) (2 * 0 * 0 + 0) (0 + 1) 19 := by
    rw [show (20 : ℕ) = 19 + 1 by norm_num, mandelLoopH_succ]
    rw [if_pos hc1]
  have s3 : mandelLoopH 4 0 (0 * 0 - 0 * 0 + 4) (2 * 0 * 0 + 0) (0 + 1) 19 = 1 := by
    rw [show (19 : ℕ) = 18 + 1 by norm_num, mandelLoopH_succ]
    rw [if_neg hc2b]
  rw [s1, s3]

theorem classifier_get_height_cfgC_eval : classifier_get_height cfgC 1000 0 = -27 / 2 := by
  have hfr : fractal_height_classifier 1000 0 = -27 / 2 := by
    simp only [fractal_height_classifier]
    rw [show ((1000 : ℝ) / 250.0) = 4 by norm_num, show ((0 : ℝ) / 250.0) = 0 by norm_num,
      mandelLoopH_four]
    norm_num
  unfold classifier_get_height
  rw [get_region_cfgC_eval]
  have hgd : (height_classifiers cfgC).getD (3 % (height_classifiers cfgC).length)
      (fun _ _ => 0) 1000 0 = fractal_height_classifier 1000 0 := rfl
  rw [hgd, hfr]

/-- Counterexample to claim C2 as stated: in `cfgC` (fractal generator
governing `(1000, 0)`) with the default band `[-10, 10]` and any
process hash that maps the key to 0, the scaled-plus-variation height at
`(1000, 0)` is `-13.75 < min_height`: generator outputs are never clamped
before rescaling (only the terrain generator clamps itself), and the
variation term can push past the band edges besides. -/
theorem c2_counterexample_height_below_band :
    plugin_get_height cfgC (fun _ => 0) (-10) 10 1000 0 < -10 := by
  unfold plugin_get_height
  push_cast
  rw [classifier_get_height_cfgC_eval]
  norm_num

/-! ## Bounds on the height generators -/

theorem abs_dot_le_sqrt_two (g1 g2 dx dy : ℝ) (hg : g1 ^ 2 + g2 ^ 2 = 1)
    (hdx : dx ^ 2 ≤ 1) (hdy : dy ^ 2 ≤ 1) : |dx * g1 + dy * g2| ≤ Real.sqrt 2 := by
  have h2 : (dx * g1 + dy * g2) ^ 2 ≤ 2 := by nlinarith [sq_nonneg (dx * g2 - dy * g1)]
  calc |dx * g1 + dy * g2| = Real.sqrt ((dx * g1 + dy * g2) ^ 2) :=
        (Real.sqrt_sq_eq_abs _).symm
    _ ≤ Real.sqrt 2 := Real.sqrt_le_sqrt h2

theorem interp_abs_le (a0 a1 w M : ℝ) (h0 : |a0| ≤ M) (h1 : |a1| ≤ M)
    (hw0 : 0 ≤ w) (hw1 : w ≤ 1) : |interpolate a0 a1 w| ≤ M := by
  have hs0 : 0 ≤ (3.0 - 2.0 * w) * w * w :=
    mul_nonneg (mul_nonneg (by linarith) hw0) hw0
  have hs1 : (3.0 - 2.0 * w) * w * w ≤ 1 := by
    have hkey : (1 - w) * (1 - w) * (1 + 2 * w) = 1 - (3.0 - 2.0 * w) * w * w := by ring
    have hnn : 0 ≤ (1 - w) * (1 - w) * (1 + 2 * w) :=
      mul_nonneg (mul_nonneg (by linarith) (by linarith)) (by linarith)
    linarith
  rw [abs_le] at h0 h1 ⊢
  unfold interpolate
  constructor <;> nlinarith

theorem dot_grid_gradient_abs_le (c : Config)
    (hg : ∀ p, (c.gradients p).1 ^ 2 + (c.gradients p).2 ^ 2 = 1)
    (ix iy : ℤ) (x y : ℝ) (hx : (x - (ix : ℝ)) ^ 2 ≤ 1) (hy : (y - (iy : ℝ)) ^ 2 ≤ 1) :
    |dot_grid_gradient c ix iy x y| ≤ Real.sqrt 2 := by
  unfold dot_grid_gradient
  exact abs_dot_le_sqrt_two _ _ _ _ (hg (ix, iy)) hx hy

theorem perlin_height_abs_le (c : Config)
    (hg : ∀ p, (c.gradients p).1 ^ 2 + (c.gradients p).2 ^ 2 = 1) (x y : ℝ) :
    |perlin_height_classifier c x y| ≤ 20 * Real.sqrt 2 := by
  have hsx0 : (0 : ℝ) ≤ x / 50.0 - (⌊x / 50.0⌋ : ℝ) := by
    linarith [Int.floor_le (x / 50.0)]
  have hsx1 : x / 50.0 - (⌊x / 50.0⌋ : ℝ) ≤ 1 := by
    linarith [Int.lt_floor_add_one (x / 50.0)]
  have hsy0 : (0 : ℝ) ≤ y / 50.0 - (⌊y / 50.0⌋ : ℝ) := by
    linarith [Int.floor_le (y / 50.0)]
  have hsy1 : y / 50.0 - (⌊y / 50.0⌋ : ℝ) ≤ 1 := by
    linarith [Int.lt_floor_add_one (y / 50.0)]
  have hd00 : |dot_grid_gradient c ⌊x / 50.0⌋ ⌊y / 50.0⌋ (x / 50.0) (y / 50.0)| ≤ Real.sqrt 2 :=
    dot_grid_gradient_abs_le c hg _ _ _ _ (by nlinarith) (by nlinarith)
  have hd10 : |dot_grid_gradient c (⌊x / 50.0⌋ + 1) ⌊y / 50.0⌋ (x / 50.0) (y / 50.0)| ≤ Real.sqrt 2 :=
    dot_grid_gradient_abs_le c hg _ _ _ _ (by push_cast; nlinarith) (by nlinarith)
  have hd01 : |dot_grid_gradient c ⌊x / 50.0⌋ (⌊y / 50.0⌋ + 1) (x / 50.0) (y / 50.0)| ≤ Real.sqrt 2 :=
    dot_grid_gradient_abs_le c hg _ _ _ _ (by nlinarith) (by push_cast; nlinarith)
  have hd11 : |dot_grid_gradient c (⌊x / 50.0⌋ + 1) (⌊y / 50.0⌋ + 1) (x / 50.0) (y / 50.0)| ≤
      Real.sqrt 2 :=
    dot_grid_gradient_abs_le c hg _ _ _ _ (by push_cast; nlinarith) (by push_cast; nlinarith)
  have hraw : |perlin_height_raw c x y| ≤ Real.sqrt 2 := by
    simp only [perlin_height_raw]
    exact interp_abs_le _ _ _ _
      (interp_abs_le _ _ _ _ hd00 hd10 hsx0 hsx1)
      (interp_abs_le _ _ _ _ hd01 hd11 hsy0 hsy1) hsy0 hsy1
  simp only [perlin_height_classifier]
  rw [abs_mul, show |(20 : ℝ)| = 20 by norm_num]
  nlinarith [hraw, Real.sqrt_nonneg 2]

theorem sine_height_abs_le (x y : ℝ) : |sine_wave_height_classifier x y| ≤ 21 := by
  unfold sine_wave_height_classifier
  have h1a := Real.neg_one_le_sin (x / 40.0)
  have h1b := Real.sin_le_one (x / 40.0)
  have h2a := Real.neg_one_le_sin (y / 30.0)
  have h2b := Real.sin_le_one (y / 30.0)
  have h3a := Real.neg_one_le_sin ((x + y) / 50.0)
  have h3b := Real.sin_le_one ((x + y) / 50.0)
  have h4a := Real.neg_one_le_sin (Real.sqrt (x * x + y * y) / 25.0)
  have h4b := Real.sin_le_one (Real.sqrt (x * x + y * y) / 25.0)
  rw [abs_le]
  constructor <;> nlinarith

theorem voronoi_height_abs_le (c : Config) (x y : ℝ) :
    |voronoi_height_classifier c x y| ≤ 15 := by
  simp only [voronoi_height_classifier]
  split
  · rename_i d0 d1 rest heq
    have hpos := Real.exp_pos (-|d1 - d0| / 5.0)
    have hle1 : Real.exp (-|d1 - d0| / 5.0) ≤ 1 := by
      rw [show (1 : ℝ) = Real.exp 0 from Real.exp_zero.symm]
      apply Real.exp_le_exp.mpr
      have h := abs_nonneg (d1 - d0)
      linarith
    rw [abs_le]
    constructor <;> nlinarith
  · simp

theorem fractal_height_abs_le (x y : ℝ) : |fractal_height_classifier x y| ≤ 15 := by
  simp only [fractal_height_classifier]
  split
  · rename_i h
    have h19 : (mandelLoopH (x / 250.0) (y / 250.0) 0 0 0 20 : ℝ) ≤ 19 := by
      have hn : mandelLoopH (x / 250.0) (y / 250.0) 0 0 0 20 ≤ 19 := by omega
      exact_mod_cast hn
    have h0 : (0 : ℝ) ≤ (mandelLoopH (x / 250.0) (y / 250.0) 0 0 0 20 : ℝ) :=
      Nat.cast_nonneg _
    rw [abs_le]
    constructor <;> nlinarith
  · norm_num

theorem terrain_height_abs_le (c : Config) (x y : ℝ) :
    |terrain_height_classifier c x y| ≤ 10 := by
  simp only [terrain_height_classifier]
  rw [abs_le]
  constructor
  · exact le_max_left _ _
  · exact max_le (by norm_num) (min_le_left _ _)

theorem classifier_get_height_abs_le (c : Config)
    (hg : ∀ p, (c.gradients p).1 ^ 2 + (c.gradients p).2 ^ 2 = 1) (x y : ℝ) :
    |classifier_get_height c x y| ≤ 20 * Real.sqrt 2 := by
  have hs : (1.4 : ℝ) ≤ Real.sqrt 2 := by
    have h1 : Real.sqrt 1.96 ≤ Real.sqrt 2 := Real.sqrt_le_sqrt (by norm_num)
    have h2 : Real.sqrt 1.96 = 1.4 := by
      rw [show (1.96 : ℝ) = 1.4 ^ 2 by norm_num, Real.sqrt_sq (by norm_num : (0 : ℝ) ≤ 1.4)]
    linarith
  unfold classifier_get_height
  rw [show (height_classifiers c).length = 5 from rfl]
  have hmod : get_region c.region_centers x y % 5 < 5 := Nat.mod_lt _ (by norm_num)
  set k := get_region c.region_centers x y % 5 with hk
  interval_cases k
  · show |perlin_height_classifier c x y| ≤ 20 * Real.sqrt 2
    exact perlin_height_abs_le c hg x y
  · show |sine_wave_height_classifier x y| ≤ 20 * Real.sqrt 2
    linarith [sine_height_abs_le x y]
  · show |voronoi_height_classifier c x y| ≤ 20 * Real.sqrt 2
    linarith [voronoi_height_abs_le c x y]
  · show |fractal_height_classifier x y| ≤ 20 * Real.sqrt 2
    linarith [fractal_height_abs_le x y]
  · show |terrain_height_classifier c x y| ≤ 20 * Real.sqrt 2
    linarith [terrain_height_abs_le c x y]

/-- Claim C2, amended: With the default settings `[-10, 10]` the rescaling
of `plugin_get_height` is the identity, so the returned height is the raw
generator value plus the hash variation `(hash % 1000)/2000 − 1/4`; it is
*not* confined to `[min_height, max_height]`.  What does hold (given the
construction guarantee that every gradient is a unit vector) is the bound
`|height| ≤ 20·√2 + 1/4 ≈ 28.5`, the perlin generator's `20·√2` worst
case plus the variation. -/
theorem c2_amended_height_identity_and_bound (c : Config) (hashFn : ℤ × ℤ → ℤ)
    (x y : ℤ) (hg : ∀ p, (c.gradients p).1 ^ 2 + (c.gradients p).2 ^ 2 = 1) :
    plugin_get_height c hashFn (-10) 10 x y =
      classifier_get_height c (x : ℝ) (y : ℝ) +
        ((hashFn (x, y) % 1000 : ℤ) : ℝ) / 2000 - 1 / 4 ∧
    |plugin_get_height c hashFn (-10) 10 x y| ≤ 20 * Real.sqrt 2 + 1 / 4 := by
  have heq : plugin_get_height c hashFn (-10) 10 x y =
      classifier_get_height c (x : ℝ) (y : ℝ) +
        ((hashFn (x, y) % 1000 : ℤ) : ℝ) / 2000 - 1 / 4 := by
    simp only [plugin_get_height]
    ring
  refine ⟨heq, ?_⟩
  rw [heq]
  have hcb := classifier_get_height_abs_le c hg (x : ℝ) (y : ℝ)
  have hm0 : (0 : ℤ) ≤ hashFn (x, y) % 1000 := Int.emod_nonneg _ (by norm_num)
  have hm1 : hashFn (x, y) % 1000 < 1000 := Int.emod_lt_of_pos _ (by norm_num)
  have hm0r : (0 : ℝ) ≤ ((hashFn (x, y) % 1000 : ℤ) : ℝ) := by exact_mod_cast hm0
  have hm1r : ((hashFn (x, y) % 1000 : ℤ) : ℝ) ≤ 1000 := by exact_mod_cast hm1.le
  rw [abs_le] at hcb ⊢
  constructor <;> nlinarith

/-- Witness for the amended C2 at `cfgA` (all gradients `(1, 0)`), the
zero hash, and the origin. -/
theorem c2_amended_height_identity_and_bound_witness :
    plugin_get_height cfgA (fun _ => 0) (-10) 10 0 0 =
      classifier_get_height cfgA ((0 : ℤ) : ℝ) ((0 : ℤ) : ℝ) +
        (((0 : ℤ) % 1000 : ℤ) : ℝ) / 2000 - 1 / 4 ∧
    |plugin_get_height cfgA (fun _ => 0) (-10) 10 0 0| ≤ 20 * Real.sqrt 2 + 1 / 4 :=
  c2_amended_height_identity_and_bound cfgA (fun _ => 0) 0 0
    (by intro p; simp [cfgA])

end Textwarp
